import Mathlib

/-!
Verification of the atp-keyserver key lifecycle and access-control engine.

The definitions below are a shallow embedding of the TypeScript source:
the SQLite tables become lists of rows, SQL queries become list
operations, thrown `error(status, message)` values from itty-router
become an explicit result type, and the nondeterministic inputs
(random key material, `new Date().toISOString()` timestamps) become
explicit parameters that the theorems quantify over.
-/

/-- Result of an engine operation: either a value, or a thrown
itty-router `error(status, message)`. -/
inductive KResult (α : Type) where
  | ok : α → KResult α
  | err : Nat → String → KResult α
deriving DecidableEq, Repr

/-- One row of the versioned `groups` table
(`id, version, owner_did, secret_key, created_at, revoked_at, status`). -/
structure GroupRow where
  id : String
  version : Nat
  owner_did : String
  secret_key : String
  created_at : String
  revoked_at : Option String
  status : String
deriving DecidableEq, Repr

/-- One row of the `group_members` table (`group_id, member_did`). -/
structure MemberRow where
  group_id : String
  member_did : String
deriving DecidableEq, Repr

/-- The durable store backing the group key engine. -/
structure Store where
  groups : List GroupRow
  group_members : List MemberRow
deriving DecidableEq, Repr

/-- `SELECT ... FROM groups WHERE id = ? AND version = ?` (`.get`: first
matching row or null). -/
def getGroupSpecific (s : Store) (group_id : String) (version : Nat) : Option GroupRow :=
  s.groups.find? (fun r => r.id == group_id && r.version == version)

/-- `SELECT ... FROM groups WHERE id = ? AND status = "active" ORDER BY
version DESC LIMIT 1`: the active row with the greatest version. -/
def getGroupActive (s : Store) (group_id : String) : Option GroupRow :=
  (s.groups.filter (fun r => r.id == group_id && r.status == "active")).argmax
    (fun r => r.version)

/-- `getGroup(group_id, version?)` from src/lib/keys/asymmetric.ts. -/
def getGroup (s : Store) (group_id : String) (version : Option Nat) : Option GroupRow :=
  match version with
  | some v => getGroupSpecific s group_id v
  | none => getGroupActive s group_id

/-- `checkMembership`: `SELECT count(*) ... WHERE group_id = ? AND
member_did = ?`, then `count > 0`. -/
def checkMembership (s : Store) (group_id member_did : String) : Bool :=
  s.group_members.any (fun m => m.group_id == group_id && m.member_did == member_did)

/-- The text before the first `#` of a group id (`group_id.split('#')[0]`). -/
def splitOwner (group_id : String) : String :=
  ⟨group_id.data.takeWhile (fun c => c != '#')⟩

/-- `createGroup`: inserts `(id, 1, owner, secret, now, 'active')` and
returns the secret. The fresh random secret and the timestamp are
explicit parameters. -/
def createGroup (s : Store) (group_id owner_did fresh now : String) : String × Store :=
  (fresh,
    { s with groups := s.groups ++ [⟨group_id, 1, owner_did, fresh, now, none, "active"⟩] })

/-- `getGroupKey(group_id, authed_did, version?)` from
src/lib/keys/asymmetric.ts, returning the result together with the
store after the call. -/
def getGroupKey (s : Store) (group_id authed_did : String) (version : Option Nat)
    (fresh now : String) : KResult String × Store :=
  let owner_did := splitOwner group_id
  match getGroup s group_id version with
  | none =>
    if owner_did = authed_did ∧ version = none then
      let c := createGroup s group_id owner_did fresh now
      (.ok c.1, c.2)
    else
      (.err 404 "Group not found", s)
  | some group =>
    if group.owner_did = authed_did then
      (.ok group.secret_key, s)
    else if checkMembership s group_id authed_did then
      (.ok group.secret_key, s)
    else
      (.err 403 "Cannot access this group key", s)

/-- Return shape of a rotation (`{oldVersion, newVersion, rotatedAt}`). -/
structure RotateResult where
  oldVersion : Nat
  newVersion : Nat
  rotatedAt : String
deriving DecidableEq, Repr

/-- `rotateGroupKey(group_id, authed_did, reason)` from
src/lib/keys/asymmetric.ts: revoke the current active version, insert
`version + 1` as active with a fresh secret. -/
def rotateGroupKey (s : Store) (group_id authed_did reason : String)
    (fresh now : String) : KResult RotateResult × Store :=
  match getGroup s group_id none with
  | none => (.err 404 "Group not found", s)
  | some group =>
    if group.owner_did ≠ authed_did then
      (.err 403 "Only group owner can rotate keys", s)
    else
      let updated := s.groups.map (fun r =>
        if r.id == group_id && r.version == group.version then
          { r with status := "revoked", revoked_at := some now }
        else r)
      (.ok ⟨group.version, group.version + 1, now⟩,
        { s with groups :=
            updated ++ [⟨group_id, group.version + 1, group.owner_did, fresh, now, none, "active"⟩] })

/-- `addMember(group_id, member_did, authed_did)` from
src/lib/keys/asymmetric.ts. -/
def addMember (s : Store) (group_id member_did authed_did : String) : KResult Unit × Store :=
  match getGroup s group_id none with
  | none => (.err 404 "Group not found", s)
  | some group =>
    if group.owner_did ≠ authed_did then
      (.err 403 "Cannot add member to group", s)
    else if checkMembership s group_id member_did then
      (.err 409 "Member already in group", s)
    else
      (.ok (), { s with group_members := s.group_members ++ [⟨group_id, member_did⟩] })

/-- `removeMember(group_id, member_did, authed_did)` from
src/lib/keys/asymmetric.ts. -/
def removeMember (s : Store) (group_id member_did authed_did : String) : KResult Unit × Store :=
  match getGroup s group_id none with
  | none => (.err 404 "Group not found", s)
  | some group =>
    if group.owner_did ≠ authed_did then
      (.err 403 "Cannot remove member from group", s)
    else if !checkMembership s group_id member_did then
      (.err 404 "Member not found in group", s)
    else
      (.ok (),
        { s with group_members :=
            s.group_members.filter (fun m => !(m.group_id == group_id && m.member_did == member_did)) })

/-! ### Basic facts about the group queries -/

theorem getGroupSpecific_props {s : Store} {gid : String} {v : Nat} {r : GroupRow}
    (h : getGroupSpecific s gid v = some r) :
    r ∈ s.groups ∧ r.id = gid ∧ r.version = v := by
  have hm := List.mem_of_find?_eq_some h
  have hp := List.find?_some h
  simp only [Bool.and_eq_true, beq_iff_eq] at hp
  exact ⟨hm, hp.1, hp.2⟩

theorem getGroupActive_props {s : Store} {gid : String} {r : GroupRow}
    (h : getGroupActive s gid = some r) :
    r ∈ s.groups ∧ r.id = gid ∧ r.status = "active" := by
  have hm := List.argmax_mem (Option.mem_def.mpr h)
  rw [List.mem_filter] at hm
  have hp := hm.2
  simp only [Bool.and_eq_true, beq_iff_eq] at hp
  exact ⟨hm.1, hp.1, hp.2⟩

theorem getGroupActive_max {s : Store} {gid : String} {r b : GroupRow}
    (h : getGroupActive s gid = some r)
    (hb : b ∈ s.groups) (hbid : b.id = gid) (hbst : b.status = "active") :
    b.version ≤ r.version := by
  refine List.le_of_mem_argmax ?_ (Option.mem_def.mpr h)
  rw [List.mem_filter]
  exact ⟨hb, by simp [hbid, hbst]⟩

theorem getGroup_members_irrel (s : Store) (ms : List MemberRow) (gid : String)
    (v : Option Nat) :
    getGroup { s with group_members := ms } gid v = getGroup s gid v := rfl

/-- If `a` is in `l` and strictly maximizes `f` among all other elements,
then `argmax` returns `a`. -/
theorem argmax_eq_of_strict {α : Type} {f : α → Nat} {l : List α} {a : α}
    (ha : a ∈ l) (hmax : ∀ b ∈ l, b ≠ a → f b < f a) :
    l.argmax f = some a := by
  cases hm : l.argmax f with
  | none =>
    rw [List.argmax_eq_none] at hm
    subst hm
    simp at ha
  | some m =>
    have hmem := List.argmax_mem (Option.mem_def.mpr hm)
    by_cases hma : m = a
    · rw [hma]
    · have h1 : f m < f a := hmax m hmem hma
      have h2 : f a ≤ f m := List.le_of_mem_argmax ha (Option.mem_def.mpr hm)
      omega

/-! ### C4 and C5: access control and lazy creation in getGroupKey -/

/-- C4: on an existing group (the fetched row is `some g`), the owner
receives the secret key for every possible membership table; a
non-owner member receives the secret key; a caller that is neither
owner nor member receives the 403 Forbidden error. -/
theorem spec_c4 : ∀ (s : Store) (gid caller : String) (v : Option Nat) (g : GroupRow)
    (fresh now : String), getGroup s gid v = some g →
    ((g.owner_did = caller → ∀ ms : List MemberRow,
        getGroupKey { s with group_members := ms } gid caller v fresh now
          = (.ok g.secret_key, { s with group_members := ms }))
     ∧ (g.owner_did ≠ caller → checkMembership s gid caller = true →
        getGroupKey s gid caller v fresh now = (.ok g.secret_key, s))
     ∧ (g.owner_did ≠ caller → checkMembership s gid caller = false →
        getGroupKey s gid caller v fresh now
          = (.err 403 "Cannot access this group key", s))) := by
  intro s gid caller v g fresh now h
  refine ⟨?_, ?_, ?_⟩
  · intro ho ms
    have h2 : getGroup { s with group_members := ms } gid v = some g := h
    simp [getGroupKey, h2, ho]
  · intro ho hm
    simp [getGroupKey, h, ho, hm]
  · intro ho hm
    simp [getGroupKey, h, ho, hm]

/-- Concrete store used by several witnesses: one group `"o#g"` at
version 1 owned by `"o"`, with `"m"` as its only member. -/
def wStore : Store :=
  ⟨[⟨"o#g", 1, "o", "sk1", "t0", none, "active"⟩], [⟨"o#g", "m"⟩]⟩

theorem spec_c4_witness :
    getGroup wStore "o#g" none = some ⟨"o#g", 1, "o", "sk1", "t0", none, "active"⟩
    ∧ getGroupKey { wStore with group_members := [] } "o#g" "o" none "f" "n"
        = (.ok "sk1", { wStore with group_members := [] })
    ∧ getGroupKey wStore "o#g" "m" none "f" "n" = (.ok "sk1", wStore)
    ∧ getGroupKey wStore "o#g" "z" none "f" "n"
        = (.err 403 "Cannot access this group key", wStore) := by
  have h := spec_c4 wStore "o#g" "o" none ⟨"o#g", 1, "o", "sk1", "t0", none, "active"⟩
    "f" "n" (by decide)
  have h2 := spec_c4 wStore "o#g" "m" none ⟨"o#g", 1, "o", "sk1", "t0", none, "active"⟩
    "f" "n" (by decide)
  have h3 := spec_c4 wStore "o#g" "z" none ⟨"o#g", 1, "o", "sk1", "t0", none, "active"⟩
    "f" "n" (by decide)
  exact ⟨by decide, h.1 (by decide) [], h2.2.1 (by decide) (by decide),
    h3.2.2 (by decide) (by decide)⟩

/-- C5: on a group id with no stored row, an explicit-version request
fails 404 for every caller and leaves the store unchanged; a
version-less request by the owner-prefix caller creates version
1/active with the fresh secret and returns it; a version-less request
by any other caller fails 404 and leaves the store unchanged. -/
theorem spec_c5 : ∀ (s : Store) (gid caller : String) (fresh now : String),
    (∀ r ∈ s.groups, r.id ≠ gid) →
    ((∀ v : Nat, getGroupKey s gid caller (some v) fresh now
        = (.err 404 "Group not found", s))
     ∧ (caller = splitOwner gid →
        getGroupKey s gid caller none fresh now
          = (.ok fresh,
             { s with groups :=
                 s.groups ++ [⟨gid, 1, splitOwner gid, fresh, now, none, "active"⟩] }))
     ∧ (caller ≠ splitOwner gid →
        getGroupKey s gid caller none fresh now = (.err 404 "Group not found", s))) := by
  intro s gid caller fresh now habs
  have hspec : ∀ v : Nat, getGroupSpecific s gid v = none := by
    intro v
    rw [getGroupSpecific, List.find?_eq_none]
    intro r hr
    simp [habs r hr]
  have hact : getGroupActive s gid = none := by
    rw [getGroupActive, List.argmax_eq_none, List.filter_eq_nil_iff]
    intro r hr
    simp [habs r hr]
  refine ⟨?_, ?_, ?_⟩
  · intro v
    simp [getGroupKey, getGroup, hspec v]
  · intro ho
    simp [getGroupKey, getGroup, hact, ho.symm, createGroup]
  · intro ho
    have : ¬(splitOwner gid = caller) := fun hx => ho hx.symm
    simp [getGroupKey, getGroup, hact, this]

theorem spec_c5_witness :
    (∀ r ∈ (Store.mk [] []).groups, r.id ≠ "o#g")
    ∧ getGroupKey ⟨[], []⟩ "o#g" "x" (some 1) "f" "n"
        = (.err 404 "Group not found", ⟨[], []⟩)
    ∧ getGroupKey ⟨[], []⟩ "o#g" "o" none "f" "n"
        = (.ok "f", ⟨[⟨"o#g", 1, "o", "f", "n", none, "active"⟩], []⟩)
    ∧ getGroupKey ⟨[], []⟩ "o#g" "z" none "f" "n"
        = (.err 404 "Group not found", ⟨[], []⟩) := by
  have h := spec_c5 ⟨[], []⟩ "o#g" "o" "f" "n" (by simp)
  have h2 := spec_c5 ⟨[], []⟩ "o#g" "x" "f" "n" (by simp)
  have h3 := spec_c5 ⟨[], []⟩ "o#g" "z" "f" "n" (by simp)
  refine ⟨by simp, h2.1 1, ?_, h3.2.2 (by decide)⟩
  have hcr := h.2.1 (by decide)
  simpa [show splitOwner "o#g" = "o" from by decide] using hcr

/-! ### C6: group key rotation -/

theorem getGroupActive_absent {s : Store} {gid : String}
    (h : ∀ r ∈ s.groups, r.id ≠ gid) : getGroupActive s gid = none := by
  rw [getGroupActive, List.argmax_eq_none, List.filter_eq_nil_iff]
  intro r hr
  simp [h r hr]

/-- The store produced by a successful rotation. -/
def rotatedStore (s : Store) (gid : String) (g : GroupRow) (fresh now : String) : Store :=
  { s with groups :=
      s.groups.map (fun r =>
        if r.id == gid && r.version == g.version then
          { r with status := "revoked", revoked_at := some now }
        else r)
      ++ [⟨gid, g.version + 1, g.owner_did, fresh, now, none, "active"⟩] }

theorem rotateGroupKey_eq {s : Store} {gid caller : String} {g : GroupRow}
    (reason fresh now : String)
    (h : getGroupActive s gid = some g) (ho : g.owner_did = caller) :
    rotateGroupKey s gid caller reason fresh now
      = (.ok ⟨g.version, g.version + 1, now⟩, rotatedStore s gid g fresh now) := by
  simp only [rotateGroupKey, show getGroup s gid none = some g from h]
  rw [if_neg (by simp [ho])]
  rfl

theorem rotatedStore_revokes {s : Store} {gid : String} {g : GroupRow}
    {fresh now : String} :
    ∀ r ∈ (rotatedStore s gid g fresh now).groups,
      r.id = gid → r.version = g.version → r.status = "revoked" ∧ r.revoked_at = some now := by
  intro r hr hrid hrv
  rcases List.mem_append.mp hr with hl | hrj
  · obtain ⟨r0, _, heq⟩ := List.mem_map.mp hl
    by_cases hc : (r0.id == gid && r0.version == g.version) = true
    · rw [if_pos hc] at heq
      rw [← heq]
      exact ⟨rfl, rfl⟩
    · rw [if_neg hc] at heq
      subst heq
      simp only [Bool.and_eq_true, beq_iff_eq] at hc
      exact absurd ⟨hrid, hrv⟩ hc
  · rw [List.mem_singleton] at hrj
    subst hrj
    simp at hrv

/-- C6: rotation fails 404 when the group never existed, 403 when the
caller is not the stored owner of the active version, and when the
caller is the owner it returns `{oldVersion, newVersion = oldVersion + 1,
rotatedAt = now}`, marks every stored row at the old version revoked
with the timestamp, and inserts the new version as the active row. -/
theorem spec_c6 :
    (∀ (s : Store) (gid caller reason fresh now : String),
      (∀ r ∈ s.groups, r.id ≠ gid) →
      rotateGroupKey s gid caller reason fresh now = (.err 404 "Group not found", s))
    ∧ (∀ (s : Store) (gid caller reason fresh now : String) (g : GroupRow),
      getGroupActive s gid = some g → g.owner_did ≠ caller →
      rotateGroupKey s gid caller reason fresh now
        = (.err 403 "Only group owner can rotate keys", s))
    ∧ (∀ (s : Store) (gid caller reason fresh now : String) (g : GroupRow),
      getGroupActive s gid = some g → g.owner_did = caller →
      rotateGroupKey s gid caller reason fresh now
        = (.ok ⟨g.version, g.version + 1, now⟩, rotatedStore s gid g fresh now)
      ∧ (∀ r ∈ (rotatedStore s gid g fresh now).groups,
          r.id = gid → r.version = g.version →
          r.status = "revoked" ∧ r.revoked_at = some now)
      ∧ (∃ x, getGroupSpecific (rotatedStore s gid g fresh now) gid g.version = some x
          ∧ x.status = "revoked" ∧ x.revoked_at = some now)
      ∧ GroupRow.mk gid (g.version + 1) g.owner_did fresh now none "active"
          ∈ (rotatedStore s gid g fresh now).groups
      ∧ getGroupActive (rotatedStore s gid g fresh now) gid
          = some ⟨gid, g.version + 1, g.owner_did, fresh, now, none, "active"⟩) := by
  refine ⟨?_, ?_, ?_⟩
  · intro s gid caller reason fresh now habs
    simp only [rotateGroupKey, show getGroup s gid none = none from getGroupActive_absent habs]
  · intro s gid caller reason fresh now g h ho
    simp only [rotateGroupKey, show getGroup s gid none = some g from h]
    rw [if_pos ho]
  · intro s gid caller reason fresh now g h ho
    obtain ⟨hmem, hid, hst⟩ := getGroupActive_props h
    have hnewmem : GroupRow.mk gid (g.version + 1) g.owner_did fresh now none "active"
        ∈ (rotatedStore s gid g fresh now).groups :=
      List.mem_append_right _ (List.mem_singleton.mpr rfl)
    refine ⟨rotateGroupKey_eq reason fresh now h ho, rotatedStore_revokes, ?_, hnewmem, ?_⟩
    · -- the old version is findable and revoked
      have hgm : ({ g with status := "revoked", revoked_at := some now } : GroupRow)
          ∈ (rotatedStore s gid g fresh now).groups := by
        refine List.mem_append_left _ (List.mem_map.mpr ⟨g, hmem, ?_⟩)
        rw [if_pos (by simp [hid])]
      have hsome : (getGroupSpecific (rotatedStore s gid g fresh now) gid g.version).isSome := by
        rw [getGroupSpecific, List.find?_isSome]
        exact ⟨_, hgm, by simp [hid]⟩
      obtain ⟨x, hx⟩ := Option.isSome_iff_exists.mp hsome
      have hxp := getGroupSpecific_props hx
      exact ⟨x, hx, rotatedStore_revokes x hxp.1 hxp.2.1 hxp.2.2⟩
    · -- the new row is the unique strict-max active row
      apply argmax_eq_of_strict
      · rw [List.mem_filter]
        exact ⟨hnewmem, by simp⟩
      · intro b hb hbne
        rw [List.mem_filter] at hb
        obtain ⟨hbmem, hbp⟩ := hb
        simp only [Bool.and_eq_true, beq_iff_eq] at hbp
        rcases List.mem_append.mp hbmem with hl | hrj
        · obtain ⟨r0, hr0, heq⟩ := List.mem_map.mp hl
          by_cases hc : (r0.id == gid && r0.version == g.version) = true
          · rw [if_pos hc] at heq
            rw [← heq] at hbp
            simp at hbp
          · rw [if_neg hc] at heq
            subst heq
            have := getGroupActive_max h hr0 hbp.1 hbp.2
            simp only [GroupRow.mk.injEq]
            omega
        · rw [List.mem_singleton] at hrj
          exact absurd hrj hbne

theorem spec_c6_witness :
    rotateGroupKey ⟨[], []⟩ "o#g" "o" "r" "f" "n" = (.err 404 "Group not found", ⟨[], []⟩)
    ∧ rotateGroupKey wStore "o#g" "z" "r" "f" "n"
        = (.err 403 "Only group owner can rotate keys", wStore)
    ∧ rotateGroupKey wStore "o#g" "o" "r" "f" "n"
        = (.ok ⟨1, 2, "n"⟩,
           rotatedStore wStore "o#g" ⟨"o#g", 1, "o", "sk1", "t0", none, "active"⟩ "f" "n")
    ∧ getGroupSpecific (rotatedStore wStore "o#g"
        ⟨"o#g", 1, "o", "sk1", "t0", none, "active"⟩ "f" "n") "o#g" 1
        = some ⟨"o#g", 1, "o", "sk1", "t0", some "n", "revoked"⟩
    ∧ getGroupActive (rotatedStore wStore "o#g"
        ⟨"o#g", 1, "o", "sk1", "t0", none, "active"⟩ "f" "n") "o#g"
        = some ⟨"o#g", 2, "o", "f", "n", none, "active"⟩ := by
  refine ⟨spec_c6.1 ⟨[], []⟩ "o#g" "o" "r" "f" "n" (by simp), ?_, ?_, by decide, ?_⟩
  · exact spec_c6.2.1 wStore "o#g" "z" "r" "f" "n"
      ⟨"o#g", 1, "o", "sk1", "t0", none, "active"⟩ (by decide) (by decide)
  · exact (spec_c6.2.2 wStore "o#g" "o" "r" "f" "n"
      ⟨"o#g", 1, "o", "sk1", "t0", none, "active"⟩ (by decide) (by decide)).1
  · exact (spec_c6.2.2 wStore "o#g" "o" "r" "f" "n"
      ⟨"o#g", 1, "o", "sk1", "t0", none, "active"⟩ (by decide) (by decide)).2.2.2.2

/-! ### C7: membership management -/

/-- C7: on a group whose stored owner is the caller, `addMember` fails
409 Conflict exactly when the member is already present and otherwise
appends the membership row; `removeMember` fails 404 both when the
group is absent and when the member is not a member; and the
add / add / remove / remove sequence yields ok, 409, ok, 404. -/
theorem spec_c7 :
    (∀ (s : Store) (gid m caller : String) (g : GroupRow),
      getGroupActive s gid = some g → g.owner_did = caller →
      ((checkMembership s gid m = true →
          addMember s gid m caller = (.err 409 "Member already in group", s))
       ∧ (checkMembership s gid m = false →
          addMember s gid m caller
            = (.ok (), { s with group_members := s.group_members ++ [⟨gid, m⟩] }))
       ∧ (checkMembership s gid m = false →
          removeMember s gid m caller = (.err 404 "Member not found in group", s))))
    ∧ (∀ (s : Store) (gid m caller : String),
      (∀ r ∈ s.groups, r.id ≠ gid) →
      removeMember s gid m caller = (.err 404 "Group not found", s))
    ∧ (∀ (s : Store) (gid m caller : String) (g : GroupRow),
      getGroupActive s gid = some g → g.owner_did = caller →
      checkMembership s gid m = false →
      (addMember s gid m caller
          = (.ok (), { s with group_members := s.group_members ++ [⟨gid, m⟩] })
       ∧ (addMember { s with group_members := s.group_members ++ [⟨gid, m⟩] } gid m caller).1
          = .err 409 "Member already in group"
       ∧ removeMember { s with group_members := s.group_members ++ [⟨gid, m⟩] } gid m caller
          = (.ok (), s)
       ∧ (removeMember s gid m caller).1 = .err 404 "Member not found in group")) := by
  have hadd : ∀ (s : Store) (gid m caller : String) (g : GroupRow),
      getGroupActive s gid = some g → g.owner_did = caller →
      (checkMembership s gid m = true →
        addMember s gid m caller = (.err 409 "Member already in group", s))
      ∧ (checkMembership s gid m = false →
        addMember s gid m caller
          = (.ok (), { s with group_members := s.group_members ++ [⟨gid, m⟩] })) := by
    intro s gid m caller g h ho
    constructor
    · intro hm
      simp only [addMember, show getGroup s gid none = some g from h]
      rw [if_neg (by simp [ho]), if_pos hm]
    · intro hm
      simp only [addMember, show getGroup s gid none = some g from h]
      rw [if_neg (by simp [ho]), if_neg (by simp [hm])]
  have hrem404 : ∀ (s : Store) (gid m caller : String) (g : GroupRow),
      getGroupActive s gid = some g → g.owner_did = caller →
      checkMembership s gid m = false →
      removeMember s gid m caller = (.err 404 "Member not found in group", s) := by
    intro s gid m caller g h ho hm
    simp only [removeMember, show getGroup s gid none = some g from h]
    rw [if_neg (by simp [ho]), if_pos (by simp [hm])]
  refine ⟨fun s gid m caller g h ho =>
      ⟨(hadd s gid m caller g h ho).1, (hadd s gid m caller g h ho).2,
       fun hm => hrem404 s gid m caller g h ho hm⟩,
    ?_, ?_⟩
  · intro s gid m caller habs
    simp only [removeMember, show getGroup s gid none = none from getGroupActive_absent habs]
  · intro s gid m caller g h ho hm
    have hmem1 : checkMembership { s with group_members := s.group_members ++ [⟨gid, m⟩] } gid m
        = true := by
      simp [checkMembership]
    refine ⟨(hadd s gid m caller g h ho).2 hm,
      by rw [(hadd { s with group_members := s.group_members ++ [⟨gid, m⟩] } gid m caller g
        (show getGroupActive { s with group_members := s.group_members ++ [⟨gid, m⟩] } gid
          = some g from h) ho).1 hmem1], ?_,
      by rw [hrem404 s gid m caller g h ho hm]⟩
    -- removing from the store with the appended row restores the store
    simp only [removeMember, show getGroup { s with group_members := s.group_members ++ [⟨gid, m⟩] }
        gid none = some g from h]
    rw [if_neg (by simp [ho]), if_neg (by simp [hmem1])]
    have hfl : (s.group_members ++ [(⟨gid, m⟩ : MemberRow)]).filter
        (fun x => !(x.group_id == gid && x.member_did == m)) = s.group_members := by
      rw [List.filter_append]
      have h1 : s.group_members.filter (fun x => !(x.group_id == gid && x.member_did == m))
          = s.group_members := by
        rw [List.filter_eq_self]
        intro a ha
        rw [checkMembership, List.any_eq_false] at hm
        simp only [Bool.not_eq_true']
        exact Bool.not_eq_true _ ▸ (Bool.eq_false_iff.mpr (hm a ha))
      have h2 : ([(⟨gid, m⟩ : MemberRow)]).filter
          (fun x => !(x.group_id == gid && x.member_did == m)) = [] := by
        simp
      rw [h1, h2, List.append_nil]
    simp only [hfl]

theorem spec_c7_witness :
    addMember wStore "o#g" "m" "o" = (.err 409 "Member already in group", wStore)
    ∧ addMember wStore "o#g" "w" "o"
        = (.ok (), { wStore with group_members := wStore.group_members ++ [⟨"o#g", "w"⟩] })
    ∧ removeMember ⟨[], []⟩ "o#g" "m" "o" = (.err 404 "Group not found", ⟨[], []⟩)
    ∧ (addMember { wStore with group_members := wStore.group_members ++ [⟨"o#g", "w"⟩] }
        "o#g" "w" "o").1 = .err 409 "Member already in group"
    ∧ removeMember { wStore with group_members := wStore.group_members ++ [⟨"o#g", "w"⟩] }
        "o#g" "w" "o" = (.ok (), wStore)
    ∧ (removeMember wStore "o#g" "w" "o").1 = .err 404 "Member not found in group" := by
  have hseq := spec_c7.2.2 wStore "o#g" "w" "o" ⟨"o#g", 1, "o", "sk1", "t0", none, "active"⟩
    (by decide) (by decide) (by decide)
  have hconf := (spec_c7.1 wStore "o#g" "m" "o" ⟨"o#g", 1, "o", "sk1", "t0", none, "active"⟩
    (by decide) (by decide)).1 (by decide)
  have habs := spec_c7.2.1 ⟨[], []⟩ "o#g" "m" "o" (by simp)
  exact ⟨hconf, hseq.1, habs, hseq.2.1, hseq.2.2.1, hseq.2.2.2⟩

/-! ### C9 and C10: ownership invariant and version-independent access -/

/-- Every stored group row's `owner_did` equals the text before the
first `#` of its group id. -/
def OwnerInv (s : Store) : Prop :=
  ∀ r ∈ s.groups, r.owner_did = splitOwner r.id

/-- C9: the ownership invariant (`owner_did` of every row equals the
owner prefix of its `groupId`, hence all rows of one group share one
owner) is preserved by getGroupKey, rotateGroupKey, addMember and
removeMember: creation stamps the prefix and rotation copies the
previous version's owner. -/
theorem spec_c9 : ∀ s : Store, OwnerInv s →
    (∀ (gid caller : String) (v : Option Nat) (fresh now : String),
      OwnerInv (getGroupKey s gid caller v fresh now).2)
    ∧ (∀ gid caller reason fresh now : String,
      OwnerInv (rotateGroupKey s gid caller reason fresh now).2)
    ∧ (∀ gid m caller : String,
      OwnerInv (addMember s gid m caller).2 ∧ OwnerInv (removeMember s gid m caller).2)
    ∧ (∀ r1 ∈ s.groups, ∀ r2 ∈ s.groups, r1.id = r2.id → r1.owner_did = r2.owner_did) := by
  intro s hinv
  refine ⟨?_, ?_, ?_, ?_⟩
  · intro gid caller v fresh now
    rw [getGroupKey]
    cases hg : getGroup s gid v with
    | none =>
      simp only
      by_cases hc : splitOwner gid = caller ∧ v = none
      · rw [if_pos hc]
        intro r hr
        rcases List.mem_append.mp hr with hl | hrj
        · exact hinv r hl
        · rw [List.mem_singleton] at hrj
          subst hrj
          rfl
      · rw [if_neg hc]
        exact hinv
    | some g =>
      simp only
      by_cases h1 : g.owner_did = caller
      · rw [if_pos h1]
        exact hinv
      · rw [if_neg h1]
        by_cases h2 : checkMembership s gid caller
        · rw [if_pos h2]
          exact hinv
        · rw [if_neg h2]
          exact hinv
  · intro gid caller reason fresh now
    rw [rotateGroupKey]
    cases hg : getGroup s gid none with
    | none => exact hinv
    | some g =>
      simp only
      by_cases h1 : g.owner_did ≠ caller
      · rw [if_pos h1]
        exact hinv
      · rw [if_neg h1]
        intro r hr
        rcases List.mem_append.mp hr with hl | hrj
        · obtain ⟨r0, hr0, heq⟩ := List.mem_map.mp hl
          by_cases hc : (r0.id == gid && r0.version == g.version) = true
          · rw [if_pos hc] at heq
            rw [← heq]
            exact hinv r0 hr0
          · rw [if_neg hc] at heq
            subst heq
            exact hinv r0 hr0
        · rw [List.mem_singleton] at hrj
          subst hrj
          obtain ⟨hm, hid, _⟩ := getGroupActive_props hg
          have := hinv g hm
          rw [hid] at this
          exact this
  · intro gid m caller
    constructor
    · rw [addMember]
      cases hg : getGroup s gid none with
      | none => exact hinv
      | some g =>
        simp only
        by_cases h1 : g.owner_did ≠ caller
        · rw [if_pos h1]; exact hinv
        · rw [if_neg h1]
          by_cases h2 : checkMembership s gid m
          · rw [if_pos h2]; exact hinv
          · rw [if_neg h2]; exact hinv
    · rw [removeMember]
      cases hg : getGroup s gid none with
      | none => exact hinv
      | some g =>
        simp only
        by_cases h1 : g.owner_did ≠ caller
        · rw [if_pos h1]; exact hinv
        · rw [if_neg h1]
          by_cases h2 : (!checkMembership s gid m) = true
          · rw [if_pos h2]; exact hinv
          · rw [if_neg h2]; exact hinv
  · intro r1 h1 r2 h2 hid
    rw [hinv r1 h1, hinv r2 h2, hid]

theorem spec_c9_witness :
    OwnerInv wStore
    ∧ OwnerInv (getGroupKey wStore "o#h" "o" none "f" "n").2
    ∧ OwnerInv (rotateGroupKey wStore "o#g" "o" "r" "f" "n").2
    ∧ OwnerInv (addMember wStore "o#g" "w" "o").2
    ∧ OwnerInv (removeMember wStore "o#g" "m" "o").2 := by
  have hw : OwnerInv wStore := by
    intro r hr
    rw [wStore] at hr
    rcases List.mem_singleton.mp hr with h
    subst h
    decide
  have h := spec_c9 wStore hw
  exact ⟨hw, h.1 "o#h" "o" none "f" "n", h.2.1 "o#g" "o" "r" "f" "n",
    (h.2.2.1 "o#g" "w" "o").1, (h.2.2.1 "o#g" "m" "o").2⟩

/-- C10: with all rows of a group sharing the prefix owner (the C9
invariant), the allow/deny outcome of `getGroupKey` for an explicitly
requested version is the same for every version that exists, active or
revoked: it succeeds (with that version's secret) exactly when the
caller is the owner prefix or a current member, and fails 403
otherwise — access is never decided per version. -/
theorem spec_c10 : ∀ (s : Store) (gid caller : String) (v : Nat) (g : GroupRow)
    (fresh now : String),
    OwnerInv s →
    getGroup s gid (some v) = some g →
    ((getGroupKey s gid caller (some v) fresh now
        = (.ok g.secret_key, s)
      ↔ (caller = splitOwner gid ∨ checkMembership s gid caller = true))
     ∧ (¬(caller = splitOwner gid ∨ checkMembership s gid caller = true) →
        getGroupKey s gid caller (some v) fresh now
          = (.err 403 "Cannot access this group key", s))) := by
  intro s gid caller v g fresh now hinv h
  obtain ⟨hmem, hid, _⟩ := getGroupSpecific_props h
  have hown : g.owner_did = splitOwner gid := by
    rw [hinv g hmem, hid]
  have hred : getGroupKey s gid caller (some v) fresh now
      = if g.owner_did = caller then (.ok g.secret_key, s)
        else if checkMembership s gid caller then (.ok g.secret_key, s)
        else (.err 403 "Cannot access this group key", s) := by
    simp only [getGroupKey, show getGroup s gid (some v) = some g from h]
  constructor
  · constructor
    · intro hok
      by_contra hno
      push_neg at hno
      have h1 : ¬(g.owner_did = caller) := by
        rw [hown]
        exact fun hx => hno.1 hx.symm
      have h2 : ¬(checkMembership s gid caller = true) := hno.2
      rw [hred, if_neg h1, if_neg h2] at hok
      exact absurd hok (by simp)
    · intro hor
      rcases hor with hc | hc
      · rw [hred, if_pos (by rw [hown, hc])]
      · by_cases h1 : g.owner_did = caller
        · rw [hred, if_pos h1]
        · rw [hred, if_neg h1, if_pos hc]
  · intro hno
    push_neg at hno
    have h1 : ¬(g.owner_did = caller) := by
      rw [hown]
      exact fun hx => hno.1 hx.symm
    have h2 : ¬(checkMembership s gid caller = true) := hno.2
    rw [hred, if_neg h1, if_neg h2]

theorem spec_c10_witness :
    OwnerInv wStore
    ∧ getGroup wStore "o#g" (some 1) = some ⟨"o#g", 1, "o", "sk1", "t0", none, "active"⟩
    ∧ getGroupKey wStore "o#g" "m" (some 1) "f" "n" = (.ok "sk1", wStore)
    ∧ getGroupKey wStore "o#g" "z" (some 1) "f" "n"
        = (.err 403 "Cannot access this group key", wStore) := by
  have hw : OwnerInv wStore := by
    intro r hr
    rw [wStore] at hr
    rcases List.mem_singleton.mp hr with h
    subst h
    decide
  refine ⟨hw, by decide, ?_, ?_⟩
  · exact (spec_c10 wStore "o#g" "m" 1 ⟨"o#g", 1, "o", "sk1", "t0", none, "active"⟩
      "f" "n" hw (by decide)).1.mpr (Or.inr (by decide))
  · exact (spec_c10 wStore "o#g" "z" 1 ⟨"o#g", 1, "o", "sk1", "t0", none, "active"⟩
      "f" "n" hw (by decide)).2 (by decide)

/-! ### C1: asymmetric keypair lifecycle (spec-modelled)

The versioned keypair engine (`getKeypairVersion`, `rotateKeypair`,
`listKeypairVersions` and the versioned `keys` schema) is imported and
called by src/main.ts but its defining module is not part of the
source snapshot; only the unversioned `getKeypair` of an earlier
snapshot is. The definitions below are therefore modelled from the
spec (§3 KeyRecord, §4.1 AsymmetricKeyLifecycle), mirroring the
versioned group engine that is in the source. -/

/-- Modelled from the spec: one KeyRecord row
`{identityId, version, publicKey, privateKey, createdAt, revokedAt?, status}`. -/
structure KeyRow where
  did : String
  version : Nat
  public_key : String
  private_key : String
  created_at : String
  revoked_at : Option String
  status : String
deriving DecidableEq, Repr

/-- Modelled from the spec: the versioned `keys` table. -/
structure KeyStore where
  keys : List KeyRow
deriving DecidableEq, Repr

/-- Modelled from the spec: the current active record of an identity
(the active row with the greatest version). -/
def getActiveKeyRow (s : KeyStore) (did : String) : Option KeyRow :=
  (s.keys.filter (fun r => r.did == did && r.status == "active")).argmax
    (fun r => r.version)

/-- Modelled from the spec: `getVersion(identityId, version)` returns the
exact version regardless of status (`getKeypairVersion` in src/main.ts). -/
def getKeypairVersion (s : KeyStore) (did : String) (version : Nat) : Option KeyRow :=
  s.keys.find? (fun r => r.did == did && r.version == version)

/-- Modelled from the spec: `getActiveKeypair(identityId)` returns the
active record, lazily creating version 1 when the identity has none.
The fresh key material and timestamp are explicit parameters. -/
def getKeypair (s : KeyStore) (did pub priv now : String) : KeyRow × KeyStore :=
  match getActiveKeyRow s did with
  | some r => (r, s)
  | none =>
    let row : KeyRow := ⟨did, 1, pub, priv, now, none, "active"⟩
    (row, ⟨s.keys ++ [row]⟩)

/-- Modelled from the spec: `rotate(identityId, reason)` marks the
current active version revoked with a timestamp and inserts
`oldVersion + 1` as active; with no existing key it fails NotFound. -/
def rotateKeypair (s : KeyStore) (did reason pub priv now : String) :
    KResult RotateResult × KeyStore :=
  match getActiveKeyRow s did with
  | none => (.err 404 "Key not found", s)
  | some r =>
    let updated := s.keys.map (fun x =>
      if x.did == did && x.version == r.version then
        { x with status := "revoked", revoked_at := some now }
      else x)
    (.ok ⟨r.version, r.version + 1, now⟩,
      ⟨updated ++ [⟨did, r.version + 1, pub, priv, now, none, "active"⟩]⟩)

/-- The key store produced by a successful rotation. -/
def rotatedKeyStore (s : KeyStore) (did : String) (r : KeyRow) (pub priv now : String) :
    KeyStore :=
  ⟨s.keys.map (fun x =>
      if x.did == did && x.version == r.version then
        { x with status := "revoked", revoked_at := some now }
      else x)
    ++ [⟨did, r.version + 1, pub, priv, now, none, "active"⟩]⟩

theorem getActiveKeyRow_props {s : KeyStore} {did : String} {r : KeyRow}
    (h : getActiveKeyRow s did = some r) :
    r ∈ s.keys ∧ r.did = did ∧ r.status = "active" := by
  have hm := List.argmax_mem (Option.mem_def.mpr h)
  rw [List.mem_filter] at hm
  have hp := hm.2
  simp only [Bool.and_eq_true, beq_iff_eq] at hp
  exact ⟨hm.1, hp.1, hp.2⟩

theorem getActiveKeyRow_max {s : KeyStore} {did : String} {r b : KeyRow}
    (h : getActiveKeyRow s did = some r)
    (hb : b ∈ s.keys) (hbid : b.did = did) (hbst : b.status = "active") :
    b.version ≤ r.version := by
  refine List.le_of_mem_argmax ?_ (Option.mem_def.mpr h)
  rw [List.mem_filter]
  exact ⟨hb, by simp [hbid, hbst]⟩

theorem rotatedKeyStore_revokes {s : KeyStore} {did : String} {r : KeyRow}
    {pub priv now : String} :
    ∀ x ∈ (rotatedKeyStore s did r pub priv now).keys,
      x.did = did → x.version = r.version →
      x.status = "revoked" ∧ x.revoked_at = some now := by
  intro x hx hxd hxv
  rcases List.mem_append.mp hx with hl | hrj
  · obtain ⟨x0, _, heq⟩ := List.mem_map.mp hl
    by_cases hc : (x0.did == did && x0.version == r.version) = true
    · rw [if_pos hc] at heq
      rw [← heq]
      exact ⟨rfl, rfl⟩
    · rw [if_neg hc] at heq
      subst heq
      simp only [Bool.and_eq_true, beq_iff_eq] at hc
      exact absurd ⟨hxd, hxv⟩ hc
  · rw [List.mem_singleton] at hrj
    subst hrj
    simp at hxv

/-- C1: with an existing key (an active row `r`), rotation returns
`{oldVersion = r.version, newVersion = r.version + 1, rotatedAt = now}`;
afterwards `getVersion(id, oldVersion)` finds a row with status
"revoked" and the revocation timestamp, and `getActiveKeypair(id)`
returns version `oldVersion + 1`; with no existing key for the
identity, rotation fails 404 NotFound. -/
theorem spec_c1 :
    (∀ (s : KeyStore) (did reason pub priv now : String) (r : KeyRow),
      getActiveKeyRow s did = some r →
      rotateKeypair s did reason pub priv now
        = (.ok ⟨r.version, r.version + 1, now⟩, rotatedKeyStore s did r pub priv now)
      ∧ (∃ x, getKeypairVersion (rotatedKeyStore s did r pub priv now) did r.version = some x
          ∧ x.status = "revoked" ∧ x.revoked_at = some now)
      ∧ (∀ pub2 priv2 now2 : String,
          (getKeypair (rotatedKeyStore s did r pub priv now) did pub2 priv2 now2).1
            = ⟨did, r.version + 1, pub, priv, now, none, "active"⟩
          ∧ (getKeypair (rotatedKeyStore s did r pub priv now) did pub2 priv2 now2).2
            = rotatedKeyStore s did r pub priv now))
    ∧ (∀ (s : KeyStore) (did reason pub priv now : String),
      (∀ x ∈ s.keys, x.did ≠ did) →
      rotateKeypair s did reason pub priv now = (.err 404 "Key not found", s)) := by
  constructor
  · intro s did reason pub priv now r h
    obtain ⟨hmem, hid, hst⟩ := getActiveKeyRow_props h
    have hnewmem : KeyRow.mk did (r.version + 1) pub priv now none "active"
        ∈ (rotatedKeyStore s did r pub priv now).keys :=
      List.mem_append_right _ (List.mem_singleton.mpr rfl)
    have hactive : getActiveKeyRow (rotatedKeyStore s did r pub priv now) did
        = some ⟨did, r.version + 1, pub, priv, now, none, "active"⟩ := by
      apply argmax_eq_of_strict
      · rw [List.mem_filter]
        exact ⟨hnewmem, by simp⟩
      · intro b hb hbne
        rw [List.mem_filter] at hb
        obtain ⟨hbmem, hbp⟩ := hb
        simp only [Bool.and_eq_true, beq_iff_eq] at hbp
        rcases List.mem_append.mp hbmem with hl | hrj
        · obtain ⟨x0, hx0, heq⟩ := List.mem_map.mp hl
          by_cases hc : (x0.did == did && x0.version == r.version) = true
          · rw [if_pos hc] at heq
            rw [← heq] at hbp
            simp at hbp
          · rw [if_neg hc] at heq
            subst heq
            have := getActiveKeyRow_max h hx0 hbp.1 hbp.2
            simp only [KeyRow.mk.injEq]
            omega
        · rw [List.mem_singleton] at hrj
          exact absurd hrj hbne
    refine ⟨?_, ?_, ?_⟩
    · simp only [rotateKeypair, h]
      rfl
    · have hgm : ({ r with status := "revoked", revoked_at := some now } : KeyRow)
          ∈ (rotatedKeyStore s did r pub priv now).keys := by
        refine List.mem_append_left _ (List.mem_map.mpr ⟨r, hmem, ?_⟩)
        rw [if_pos (by simp [hid])]
      have hsome : (getKeypairVersion (rotatedKeyStore s did r pub priv now) did
          r.version).isSome := by
        rw [getKeypairVersion, List.find?_isSome]
        exact ⟨_, hgm, by simp [hid]⟩
      obtain ⟨x, hx⟩ := Option.isSome_iff_exists.mp hsome
      have hxm := List.mem_of_find?_eq_some hx
      have hxp := List.find?_some hx
      simp only [Bool.and_eq_true, beq_iff_eq] at hxp
      exact ⟨x, hx, rotatedKeyStore_revokes x hxm hxp.1 hxp.2⟩
    · intro pub2 priv2 now2
      rw [getKeypair, hactive]
      exact ⟨rfl, rfl⟩
  · intro s did reason pub priv now habs
    have : getActiveKeyRow s did = none := by
      rw [getActiveKeyRow, List.argmax_eq_none, List.filter_eq_nil_iff]
      intro x hx
      simp [habs x hx]
    simp only [rotateKeypair, this]

theorem spec_c1_witness :
    getActiveKeyRow ⟨[⟨"did:a", 1, "pk1", "sk1", "t0", none, "active"⟩]⟩ "did:a"
      = some ⟨"did:a", 1, "pk1", "sk1", "t0", none, "active"⟩
    ∧ rotateKeypair ⟨[⟨"did:a", 1, "pk1", "sk1", "t0", none, "active"⟩]⟩
        "did:a" "r" "pk2" "sk2" "t1"
      = (.ok ⟨1, 2, "t1"⟩,
         ⟨[⟨"did:a", 1, "pk1", "sk1", "t0", some "t1", "revoked"⟩,
           ⟨"did:a", 2, "pk2", "sk2", "t1", none, "active"⟩]⟩)
    ∧ getKeypairVersion
        ⟨[⟨"did:a", 1, "pk1", "sk1", "t0", some "t1", "revoked"⟩,
          ⟨"did:a", 2, "pk2", "sk2", "t1", none, "active"⟩]⟩ "did:a" 1
      = some ⟨"did:a", 1, "pk1", "sk1", "t0", some "t1", "revoked"⟩
    ∧ (getKeypair
        ⟨[⟨"did:a", 1, "pk1", "sk1", "t0", some "t1", "revoked"⟩,
          ⟨"did:a", 2, "pk2", "sk2", "t1", none, "active"⟩]⟩ "did:a" "p" "q" "t2").1.version = 2
    ∧ rotateKeypair ⟨[]⟩ "did:a" "r" "pk" "sk" "t0" = (.err 404 "Key not found", ⟨[]⟩) := by
  have h1 := (spec_c1.1 ⟨[⟨"did:a", 1, "pk1", "sk1", "t0", none, "active"⟩]⟩
    "did:a" "r" "pk2" "sk2" "t1" ⟨"did:a", 1, "pk1", "sk1", "t0", none, "active"⟩ (by decide)).1
  have h2 := spec_c1.2 ⟨[]⟩ "did:a" "r" "pk" "sk" "t0" (by simp)
  exact ⟨by decide, by rw [h1]; decide, by decide, by decide, h2⟩

/-! ### Encryption codec (C2, C3)

`encryptMessage` / `decryptMessage` from src/lib/keys/asymmetric.ts:
the hex envelope handling (nonce ‖ ciphertext, split at 48 hex chars)
is embedded from the source. The xchacha20poly1305 cipher itself is
the external @noble/ciphers library, not part of this repository; it
is modelled from the spec (§4.2) as an ideal authenticated cipher
whose ciphertext-with-tag binds key, nonce, aad and plaintext and
whose decryption structurally verifies all of them ("fails closed if
aad, key, or ciphertext integrity does not match"). -/

/-- Hex digit for a value 0..15, lowercase (as @noble bytesToHex). -/
def hexDigitChar (n : Nat) : Char :=
  if n < 10 then Char.ofNat (48 + n) else Char.ofNat (87 + n)

/-- One byte as two lowercase hex chars. -/
def byteToHex (b : Nat) : List Char :=
  [hexDigitChar (b / 16 % 16), hexDigitChar (b % 16)]

/-- @noble `bytesToHex`: lowercase hex string of a byte list. -/
def bytesToHex (bs : List Nat) : String :=
  ⟨(bs.map byteToHex).flatten⟩

/-- @noble `asciiToBase16`: value of one hex char, accepting 0-9, a-f
and A-F; anything else is rejected. -/
def hexCharValue (c : Char) : Option Nat :=
  if 48 ≤ c.toNat ∧ c.toNat ≤ 57 then some (c.toNat - 48)
  else if 97 ≤ c.toNat ∧ c.toNat ≤ 102 then some (c.toNat - 87)
  else if 65 ≤ c.toNat ∧ c.toNat ≤ 70 then some (c.toNat - 55)
  else none

/-- @noble `hexToBytes` on a char list: pairs of hex chars; odd length
or a non-hex char throws (here: `none`). -/
def hexCharsToBytes : List Char → Option (List Nat)
  | [] => some []
  | c1 :: c2 :: rest => do
      let n1 ← hexCharValue c1
      let n2 ← hexCharValue c2
      let bs ← hexCharsToBytes rest
      pure ((n1 * 16 + n2) :: bs)
  | _ => none

/-- @noble `hexToBytes` on a string. -/
def hexToBytes (s : String) : Option (List Nat) :=
  hexCharsToBytes s.data

/-- Modelled: `TextEncoder.encode` / `utf8ToBytes`. The concrete UTF-8
byte layout is immaterial to the claims; what matters is an injective,
decodable byte serialization of the string, here fixed-width 4 bytes
per Unicode code point. -/
def utf8ToBytes (s : String) : List Nat :=
  (s.data.map (fun c =>
    [c.toNat / 16777216, c.toNat / 65536 % 256, c.toNat / 256 % 256, c.toNat % 256])).flatten

/-- Modelled: `TextDecoder.decode`, inverse of `utf8ToBytes`. -/
def decodeChars : List Nat → Option (List Char)
  | [] => some []
  | a :: b :: c :: d :: rest => do
      let cs ← decodeChars rest
      pure (Char.ofNat (a * 16777216 + b * 65536 + c * 256 + d) :: cs)
  | _ => none

/-- Modelled: `TextDecoder.decode` at the string level. -/
def textDecode (bs : List Nat) : Option String :=
  (decodeChars bs).map (fun cs => ⟨cs⟩)

/-- Length-value serialization of one field of the ideal ciphertext:
an injective, prefix-free framing (`length` in unary, then the bytes). -/
def ser (field : List Nat) : List Nat :=
  List.replicate field.length 1 ++ 0 :: field

/-- Inverse of `ser` on a prefix: recover one framed field and the rest. -/
def parseField (m : List Nat) : Option (List Nat × List Nat) :=
  let n := (m.takeWhile (fun b => b == 1)).length
  match m.drop n with
  | 0 :: rest => if n ≤ rest.length then some (rest.take n, rest.drop n) else none
  | _ => none

/-- Modelled from the spec: the external xchacha20poly1305 AEAD as an
ideal authenticated cipher. The ciphertext-with-tag is an injective
framing binding key, nonce, aad and plaintext (the plaintext field is
duplicated, playing the role of the authentication tag). Key and nonce
lengths are checked as the real cipher does (32 and 24 bytes). -/
def xchachaEncrypt (key nonce aad data : List Nat) : Option (List Nat) :=
  if key.length = 32 ∧ nonce.length = 24 then
    some (ser key ++ ser nonce ++ ser aad ++ ser data ++ ser data)
  else none

/-- Modelled from the spec: ideal AEAD decryption — parse the five
framed fields, require exact consumption, and verify key, nonce, aad
and the duplicated plaintext before releasing anything. -/
def xchachaDecrypt (key nonce aad msg : List Nat) : Option (List Nat) :=
  if key.length = 32 ∧ nonce.length = 24 then
    match parseField msg with
    | none => none
    | some (k, m1) =>
      match parseField m1 with
      | none => none
      | some (n, m2) =>
        match parseField m2 with
        | none => none
        | some (a, m3) =>
          match parseField m3 with
          | none => none
          | some (d1, m4) =>
            match parseField m4 with
            | none => none
            | some (d2, m5) =>
              if k = key ∧ n = nonce ∧ a = aad ∧ d1 = d2 ∧ m5 = [] then some d1
              else none
  else none

/-- `NONCE_LENGTH` from src/lib/keys/asymmetric.ts. -/
def NONCE_LENGTH : Nat := 24

/-- `encryptMessage(id, key, plaintext)` from src/lib/keys/asymmetric.ts:
envelope = `bytesToHex(nonce).concat(bytesToHex(ciphertext))`. The
random 24-byte nonce is an explicit parameter; a thrown exception
(bad hex key, bad key/nonce length) is `none`. -/
def encryptMessage (id key plaintext : String) (nonce : List Nat) : Option String := do
  let keyBytes ← hexToBytes key
  let ciphertext ← xchachaEncrypt keyBytes nonce (utf8ToBytes id) (utf8ToBytes plaintext)
  pure (bytesToHex nonce ++ bytesToHex ciphertext)

/-- `decryptMessage(id, key, ciphertext)` from
src/lib/keys/asymmetric.ts: split the envelope at the first
`NONCE_LENGTH * 2 = 48` hex chars, decode both halves, decrypt; any
thrown exception (invalid hex, authentication failure) is `none`. -/
def decryptMessage (id key ciphertext : String) : Option String := do
  let nonceHex : String := ⟨ciphertext.data.take (NONCE_LENGTH * 2)⟩
  let messageHex : String := ⟨ciphertext.data.drop (NONCE_LENGTH * 2)⟩
  let keyBytes ← hexToBytes key
  let nonceBytes ← hexToBytes nonceHex
  let msgBytes ← hexToBytes messageHex
  let data ← xchachaDecrypt keyBytes nonceBytes (utf8ToBytes id) msgBytes
  textDecode data

/-- Flip one bit (bit `i` of the code unit of the char at index `j`) of
a string; out-of-range `j` leaves the string unchanged. -/
def flipBitChar (c : Char) (i : Nat) : Char :=
  Char.ofNat (c.toNat ^^^ (1 <<< i))

/-- Flip bit `i` of the character at position `j`. -/
def flipBit (s : String) (j i : Nat) : String :=
  match s.data[j]? with
  | none => s
  | some c => ⟨s.data.set j (flipBitChar c i)⟩

/-! ### Hex and text codec lemmas -/

theorem hexCharValue_lt {c : Char} {n : Nat} (h : hexCharValue c = some n) : n < 16 := by
  rw [hexCharValue] at h
  split_ifs at h with h1 h2 h3 <;> simp at h <;> omega

theorem hexCharsToBytes_lt : ∀ (l : List Char) (bs : List Nat),
    hexCharsToBytes l = some bs → ∀ b ∈ bs, b < 256
  | [], bs, h => by
    simp [hexCharsToBytes] at h
    subst h
    simp
  | [c], bs, h => by
    simp [hexCharsToBytes] at h
  | c1 :: c2 :: rest, bs, h => by
    rw [hexCharsToBytes] at h
    cases h1 : hexCharValue c1 with
    | none => rw [h1] at h; simp at h
    | some n1 =>
      cases h2 : hexCharValue c2 with
      | none => rw [h1, h2] at h; simp at h
      | some n2 =>
        cases h3 : hexCharsToBytes rest with
        | none => rw [h1, h2, h3] at h; simp at h
        | some bs0 =>
          rw [h1, h2, h3] at h
          simp at h
          subst h
          intro b hb
          rcases List.mem_cons.mp hb with hb | hb
          · have := hexCharValue_lt h1
            have := hexCharValue_lt h2
            omega
          · exact hexCharsToBytes_lt rest bs0 h3 b hb

theorem hexCharsToBytes_len : ∀ (l : List Char) (bs : List Nat),
    hexCharsToBytes l = some bs → l.length = 2 * bs.length
  | [], bs, h => by
    simp [hexCharsToBytes] at h
    subst h
    rfl
  | [c], bs, h => by
    simp [hexCharsToBytes] at h
  | c1 :: c2 :: rest, bs, h => by
    rw [hexCharsToBytes] at h
    cases h1 : hexCharValue c1 with
    | none => rw [h1] at h; simp at h
    | some n1 =>
      cases h2 : hexCharValue c2 with
      | none => rw [h1, h2] at h; simp at h
      | some n2 =>
        cases h3 : hexCharsToBytes rest with
        | none => rw [h1, h2, h3] at h; simp at h
        | some bs0 =>
          rw [h1, h2, h3] at h
          simp at h
          subst h
          have := hexCharsToBytes_len rest bs0 h3
          simp only [List.length_cons]
          omega

theorem hexCharValue_hexDigitChar : ∀ n, n < 16 → hexCharValue (hexDigitChar n) = some n := by
  decide

theorem hexCharsToBytes_bytesToHex : ∀ (bs : List Nat), (∀ b ∈ bs, b < 256) →
    hexCharsToBytes (bs.map byteToHex).flatten = some bs := by
  intro bs
  induction bs with
  | nil => intro _; rfl
  | cons b rest ih =>
    intro hb
    have hb256 : b < 256 := hb b (List.mem_cons_self _ _)
    have h1 : b / 16 % 16 < 16 := Nat.mod_lt _ (by omega)
    have h2 : b % 16 < 16 := Nat.mod_lt _ (by omega)
    have hdiv : b / 16 % 16 * 16 + b % 16 = b := by
      have hd : b / 16 < 16 := by omega
      rw [Nat.mod_eq_of_lt hd]
      have := Nat.div_add_mod b 16
      omega
    simp only [List.map_cons, List.flatten_cons, byteToHex, List.cons_append,
      List.nil_append]
    rw [hexCharsToBytes]
    rw [hexCharValue_hexDigitChar _ h1, hexCharValue_hexDigitChar _ h2,
      ih (fun x hx => hb x (List.mem_cons_of_mem _ hx))]
    simp [hdiv]

theorem bytesToHex_data (bs : List Nat) :
    (bytesToHex bs).data = (bs.map byteToHex).flatten := rfl

theorem bytesToHex_length (bs : List Nat) :
    (bytesToHex bs).data.length = 2 * bs.length := by
  rw [bytesToHex_data]
  induction bs with
  | nil => rfl
  | cons b rest ih =>
    simp only [List.map_cons, List.flatten_cons, List.length_append, ih, byteToHex]
    simp
    omega

theorem hexToBytes_bytesToHex (bs : List Nat) (h : ∀ b ∈ bs, b < 256) :
    hexToBytes (bytesToHex bs) = some bs := by
  rw [hexToBytes, bytesToHex_data]
  exact hexCharsToBytes_bytesToHex bs h

theorem decodeChars_utf8 : ∀ cs : List Char,
    decodeChars ((cs.map (fun c =>
      [c.toNat / 16777216, c.toNat / 65536 % 256, c.toNat / 256 % 256, c.toNat % 256])).flatten)
      = some cs := by
  intro cs
  induction cs with
  | nil => rfl
  | cons c rest ih =>
    simp only [List.map_cons, List.flatten_cons, List.cons_append, List.nil_append]
    rw [decodeChars]
    rw [ih]
    have harith : c.toNat / 16777216 * 16777216 + c.toNat / 65536 % 256 * 65536
        + c.toNat / 256 % 256 * 256 + c.toNat % 256 = c.toNat := by
      have h32 : c.toNat < 4294967296 := c.val.toNat_lt
      omega
    simp [harith, Char.ofNat_toNat]

theorem textDecode_utf8 (s : String) : textDecode (utf8ToBytes s) = some s := by
  rw [textDecode, utf8ToBytes, decodeChars_utf8]
  cases s
  rfl

theorem utf8ToBytes_inj {a b : String} (h : utf8ToBytes a = utf8ToBytes b) : a = b := by
  have ha := textDecode_utf8 a
  have hb := textDecode_utf8 b
  rw [h] at ha
  rw [ha] at hb
  exact Option.some.inj hb

theorem utf8ToBytes_lt (s : String) : ∀ b ∈ utf8ToBytes s, b < 256 := by
  intro b hb
  rw [utf8ToBytes] at hb
  obtain ⟨l, hl, hbl⟩ := List.mem_flatten.mp hb
  obtain ⟨c, _, hc⟩ := List.mem_map.mp hl
  subst hc
  have h32 : c.toNat < 4294967296 := c.val.toNat_lt
  simp only [List.mem_cons, List.not_mem_nil, or_false] at hbl
  rcases hbl with h | h | h | h <;> subst h <;> omega

/-! ### Framing lemmas for the ideal cipher -/

theorem takeWhile_replicate_cons (n : Nat) (t : List Nat) :
    ((List.replicate n 1 ++ 0 :: t).takeWhile (fun b => b == 1)) = List.replicate n 1 := by
  induction n with
  | zero => simp [List.takeWhile]
  | succ k ih =>
    rw [List.replicate_succ, List.cons_append, List.takeWhile_cons]
    simp only [beq_self_eq_true, if_true]
    rw [ih]

theorem take_takeWhile_length {α : Type} (p : α → Bool) : ∀ l : List α,
    l.take (l.takeWhile p).length = l.takeWhile p := by
  intro l
  induction l with
  | nil => rfl
  | cons c t ih =>
    rw [List.takeWhile_cons]
    by_cases hc : p c = true
    · simp only [hc, if_true, List.length_cons, List.take_succ_cons, ih]
    · simp only [hc]
      simp

theorem ser_length (f : List Nat) : (ser f).length = 2 * f.length + 1 := by
  rw [ser]
  simp
  omega

theorem parseField_ser (x r : List Nat) : parseField (ser x ++ r) = some (x, r) := by
  have hform : ser x ++ r = List.replicate x.length 1 ++ 0 :: (x ++ r) := by
    rw [ser]
    simp
  rw [parseField, hform]
  rw [takeWhile_replicate_cons]
  simp only [List.length_replicate]
  have h0 := List.drop_left (List.replicate x.length (1 : Nat)) (0 :: (x ++ r))
  rw [List.length_replicate] at h0
  simp only [h0]
  rw [if_pos (by simp)]
  rw [List.take_left, List.drop_left]

theorem parseField_sound {m f r : List Nat} (h : parseField m = some (f, r)) :
    m = ser f ++ r := by
  rw [parseField] at h
  split at h
  case _ rest hdrop =>
    split at h
    case isTrue hle =>
      simp only [Option.some.injEq, Prod.mk.injEq] at h
      obtain ⟨hf, hr⟩ := h
      set n := (m.takeWhile (fun b => b == 1)).length with hn
      have htw : m.takeWhile (fun b => b == 1) = List.replicate n 1 := by
        rw [List.eq_replicate_iff]
        refine ⟨rfl, ?_⟩
        intro x hx
        have := List.mem_takeWhile_imp hx
        simpa using this
      have hm : m = List.replicate n 1 ++ 0 :: rest := by
        have h1 := List.take_append_drop n m
        rw [← h1, hdrop, take_takeWhile_length, htw]
      have hrest : rest = f ++ r := by
        rw [← hf, ← hr, List.take_append_drop]
      have hflen : f.length = n := by
        rw [← hf]
        simp [List.length_take]
        omega
      rw [hm, hrest, ser, hflen]
      simp [List.append_assoc]
    case isFalse hle => simp at h
  case _ hne => simp at h

theorem ser_append_inj {x y r s : List Nat} (h : ser x ++ r = ser y ++ s) :
    x = y ∧ r = s := by
  have hlen : x.length = y.length := by
    have hx : (ser x ++ r).takeWhile (fun b => b == 1) = List.replicate x.length 1 := by
      rw [show ser x ++ r = List.replicate x.length 1 ++ 0 :: (x ++ r) from by rw [ser]; simp]
      exact takeWhile_replicate_cons _ _
    have hy : (ser y ++ s).takeWhile (fun b => b == 1) = List.replicate y.length 1 := by
      rw [show ser y ++ s = List.replicate y.length 1 ++ 0 :: (y ++ s) from by rw [ser]; simp]
      exact takeWhile_replicate_cons _ _
    rw [h, hy] at hx
    have h5 := congrArg List.length hx
    simp at h5
    omega
  have hser : ser x = ser y ∧ r = s := by
    apply List.append_inj h
    rw [ser_length, ser_length, hlen]
  refine ⟨?_, hser.2⟩
  have h2 := hser.1
  rw [ser, ser] at h2
  have h3 := List.append_inj h2 (by simp [hlen])
  have h4 := h3.2
  exact List.cons_eq_cons.mp h4 |>.2

theorem ser_inj {x y : List Nat} (h : ser x = ser y) : x = y := by
  have : ser x ++ [] = ser y ++ [] := by simp [h]
  exact (ser_append_inj this).1

theorem ser_lt {f : List Nat} (hf : ∀ b ∈ f, b < 256) : ∀ b ∈ ser f, b < 256 := by
  intro b hb
  rw [ser] at hb
  rcases List.mem_append.mp hb with h | h
  · have := List.eq_of_mem_replicate h
    omega
  · rcases List.mem_cons.mp h with h | h
    · omega
    · exact hf b h

/-! ### Ideal AEAD lemmas -/

/-- The framed ciphertext-with-tag produced by the ideal cipher. -/
def envMsg (kb nonce aad d : List Nat) : List Nat :=
  ser kb ++ (ser nonce ++ (ser aad ++ (ser d ++ ser d)))

theorem xchachaEncrypt_eq {kb nonce : List Nat} (aad d : List Nat)
    (h32 : kb.length = 32) (h24 : nonce.length = 24) :
    xchachaEncrypt kb nonce aad d = some (envMsg kb nonce aad d) := by
  rw [xchachaEncrypt, if_pos ⟨h32, h24⟩, envMsg]
  simp [List.append_assoc]

theorem parseField_ser_nil (x : List Nat) : parseField (ser x) = some (x, []) := by
  have h := parseField_ser x []
  simpa using h

theorem xchachaDecrypt_envMsg {kb nonce : List Nat} (aad d : List Nat)
    (h32 : kb.length = 32) (h24 : nonce.length = 24) :
    xchachaDecrypt kb nonce aad (envMsg kb nonce aad d) = some d := by
  rw [xchachaDecrypt, if_pos ⟨h32, h24⟩, envMsg]
  simp [parseField_ser, parseField_ser_nil]

theorem xchachaDecrypt_sound {kb nonce aad msg d : List Nat}
    (h : xchachaDecrypt kb nonce aad msg = some d) :
    kb.length = 32 ∧ nonce.length = 24 ∧ msg = envMsg kb nonce aad d := by
  rw [xchachaDecrypt] at h
  split at h
  case isFalse => simp at h
  case isTrue hlen =>
    split at h
    case _ => simp at h
    case _ k m1 hp1 =>
      split at h
      case _ => simp at h
      case _ n m2 hp2 =>
        split at h
        case _ => simp at h
        case _ a m3 hp3 =>
          split at h
          case _ => simp at h
          case _ d1 m4 hp4 =>
            split at h
            case _ => simp at h
            case _ d2 m5 hp5 =>
              split at h
              case isFalse => simp at h
              case isTrue hc =>
                obtain ⟨hk, hn, ha, hd12, hm5⟩ := hc
                simp only [Option.some.injEq] at h
                subst h
                refine ⟨hlen.1, hlen.2, ?_⟩
                have e1 := parseField_sound hp1
                have e2 := parseField_sound hp2
                have e3 := parseField_sound hp3
                have e4 := parseField_sound hp4
                have e5 := parseField_sound hp5
                rw [envMsg, ← hk, ← hn, ← ha]
                rw [e1, e2, e3, e4, e5, hm5, hd12]
                simp

/-! ### Envelope lemmas -/

theorem envMsg_lt {kb nonce aad d : List Nat}
    (hk : ∀ b ∈ kb, b < 256) (hn : ∀ b ∈ nonce, b < 256)
    (ha : ∀ b ∈ aad, b < 256) (hd : ∀ b ∈ d, b < 256) :
    ∀ b ∈ envMsg kb nonce aad d, b < 256 := by
  intro b hb
  rw [envMsg] at hb
  rcases List.mem_append.mp hb with h | h
  · exact ser_lt hk b h
  rcases List.mem_append.mp h with h | h
  · exact ser_lt hn b h
  rcases List.mem_append.mp h with h | h
  · exact ser_lt ha b h
  rcases List.mem_append.mp h with h | h
  · exact ser_lt hd b h
  · exact ser_lt hd b h

theorem encryptMessage_eq (id key plaintext : String) (nonce kb : List Nat)
    (hk : hexToBytes key = some kb) (h32 : kb.length = 32) (h24 : nonce.length = 24) :
    encryptMessage id key plaintext nonce
      = some (bytesToHex nonce
          ++ bytesToHex (envMsg kb nonce (utf8ToBytes id) (utf8ToBytes plaintext))) := by
  rw [encryptMessage, hk]
  simp [xchachaEncrypt_eq (utf8ToBytes id) (utf8ToBytes plaintext) h32 h24]

theorem decryptMessage_split (id key : String) {nonce2 m2 : List Nat}
    (hn24 : nonce2.length = 24) (hnb : ∀ b ∈ nonce2, b < 256) (hmb : ∀ b ∈ m2, b < 256) :
    decryptMessage id key (bytesToHex nonce2 ++ bytesToHex m2)
      = (hexToBytes key).bind (fun kb =>
          (xchachaDecrypt kb nonce2 (utf8ToBytes id) m2).bind textDecode) := by
  rw [decryptMessage]
  have hdata : (bytesToHex nonce2 ++ bytesToHex m2).data
      = (bytesToHex nonce2).data ++ (bytesToHex m2).data := String.data_append _ _
  have hlen : (bytesToHex nonce2).data.length = 48 := by
    rw [bytesToHex_length, hn24]
  have htake : ((bytesToHex nonce2 ++ bytesToHex m2).data.take (NONCE_LENGTH * 2))
      = (bytesToHex nonce2).data := by
    rw [hdata, show NONCE_LENGTH * 2 = 48 from rfl, ← hlen, List.take_left]
  have hdrop : ((bytesToHex nonce2 ++ bytesToHex m2).data.drop (NONCE_LENGTH * 2))
      = (bytesToHex m2).data := by
    rw [hdata, show NONCE_LENGTH * 2 = 48 from rfl, ← hlen, List.drop_left]
  rw [htake, hdrop]
  have h1 : hexToBytes (⟨(bytesToHex nonce2).data⟩ : String) = some nonce2 :=
    hexToBytes_bytesToHex nonce2 hnb
  have h2 : hexToBytes (⟨(bytesToHex m2).data⟩ : String) = some m2 :=
    hexToBytes_bytesToHex m2 hmb
  rw [h1, h2]
  cases hexToBytes key <;> rfl

/-! ### C2: encrypt/decrypt round trip -/

theorem decrypt_encrypt_roundtrip (id key plaintext : String) (nonce kb : List Nat)
    (hk : hexToBytes key = some kb) (h32 : kb.length = 32)
    (h24 : nonce.length = 24) (hnb : ∀ b ∈ nonce, b < 256) :
    encryptMessage id key plaintext nonce
      = some (bytesToHex nonce
          ++ bytesToHex (envMsg kb nonce (utf8ToBytes id) (utf8ToBytes plaintext)))
    ∧ decryptMessage id key (bytesToHex nonce
          ++ bytesToHex (envMsg kb nonce (utf8ToBytes id) (utf8ToBytes plaintext)))
        = some plaintext := by
  have hkb : ∀ b ∈ kb, b < 256 := hexCharsToBytes_lt key.data kb hk
  refine ⟨encryptMessage_eq id key plaintext nonce kb hk h32 h24, ?_⟩
  rw [decryptMessage_split id key h24 hnb
    (envMsg_lt hkb hnb (utf8ToBytes_lt id) (utf8ToBytes_lt plaintext))]
  rw [hk]
  simp [xchachaDecrypt_envMsg (utf8ToBytes id) (utf8ToBytes plaintext) h32 h24,
    textDecode_utf8]

/-- C2: for every aad string, hex-encoded 32-byte key, plaintext and
24-byte nonce, decrypting the envelope produced by `encryptMessage`
(hex nonce ‖ hex ciphertext, split back at the first 48 hex chars)
with the same aad and key returns the plaintext. -/
theorem spec_c2 : ∀ (id key plaintext : String) (nonce kb : List Nat),
    hexToBytes key = some kb → kb.length = 32 →
    nonce.length = 24 → (∀ b ∈ nonce, b < 256) →
    (encryptMessage id key plaintext nonce).bind (decryptMessage id key)
      = some plaintext := by
  intro id key plaintext nonce kb hk h32 h24 hnb
  obtain ⟨he, hd⟩ := decrypt_encrypt_roundtrip id key plaintext nonce kb hk h32 h24 hnb
  rw [he]
  simpa using hd

/-- Hex key of 32 zero bytes, used by concrete codec witnesses. -/
def key0 : String := ⟨List.replicate 64 '0'⟩

/-- Concrete 24-byte nonce (all bytes 0x0a, so its hex is all "0a"). -/
def nonce0 : List Nat := List.replicate 24 10

theorem spec_c2_witness :
    hexToBytes key0 = some (List.replicate 32 0)
    ∧ (List.replicate 32 (0 : Nat)).length = 32
    ∧ nonce0.length = 24
    ∧ (∀ b ∈ nonce0, b < 256)
    ∧ (encryptMessage "x" key0 "hi" nonce0).bind (decryptMessage "x" key0) = some "hi" := by
  exact ⟨by decide, by decide, by decide, by decide,
    spec_c2 "x" key0 "hi" nonce0 (List.replicate 32 0)
      (by decide) (by decide) (by decide) (by decide)⟩

/-! ### C3: tamper sensitivity -/

theorem envMsg_inj {kb kb2 nonce nonce2 a a2 d d2 : List Nat}
    (h : envMsg kb nonce a d = envMsg kb2 nonce2 a2 d2) :
    kb = kb2 ∧ nonce = nonce2 ∧ a = a2 ∧ d = d2 := by
  rw [envMsg, envMsg] at h
  obtain ⟨h1, h⟩ := ser_append_inj h
  obtain ⟨h2, h⟩ := ser_append_inj h
  obtain ⟨h3, h⟩ := ser_append_inj h
  obtain ⟨h4, _⟩ := ser_append_inj h
  exact ⟨h1, h2, h3, h4⟩

theorem hexCharsToBytes_set : ∀ (l : List Char) (t : Nat) (c' : Char) (m m2 : List Nat),
    hexCharsToBytes l = some m → hexCharsToBytes (l.set t c') = some m2 →
    m2.length = m.length ∧ ∀ u, u ≠ t / 2 → m2[u]? = m[u]?
  | [], t, c', m, m2, h, h2 => by
    simp only [List.set_nil] at h2
    simp [hexCharsToBytes] at h h2
    subst h
    subst h2
    exact ⟨rfl, fun u _ => rfl⟩
  | [c], t, c', m, m2, h, h2 => by
    simp [hexCharsToBytes] at h
  | c1 :: c2 :: rest, t, c', m, m2, h, h2 => by
    rw [hexCharsToBytes] at h
    cases h1 : hexCharValue c1 with
    | none => rw [h1] at h; simp at h
    | some n1 =>
    cases hc2 : hexCharValue c2 with
    | none => rw [h1, hc2] at h; simp at h
    | some n2 =>
    cases h3 : hexCharsToBytes rest with
    | none => rw [h1, hc2, h3] at h; simp at h
    | some bs0 =>
    rw [h1, hc2, h3] at h
    simp at h
    subst h
    match t with
    | 0 =>
      rw [show (c1 :: c2 :: rest).set 0 c' = c' :: c2 :: rest from rfl] at h2
      rw [hexCharsToBytes] at h2
      cases h1b : hexCharValue c' with
      | none => rw [h1b] at h2; simp at h2
      | some n1b =>
        rw [h1b, hc2, h3] at h2
        simp at h2
        subst h2
        refine ⟨by simp, ?_⟩
        intro u hu
        match u with
        | 0 => exact absurd rfl hu
        | v + 1 => simp
    | 1 =>
      rw [show (c1 :: c2 :: rest).set 1 c' = c1 :: c' :: rest from rfl] at h2
      rw [hexCharsToBytes] at h2
      cases h2b : hexCharValue c' with
      | none => rw [h1, h2b] at h2; simp at h2
      | some n2b =>
        rw [h1, h2b, h3] at h2
        simp at h2
        subst h2
        refine ⟨by simp, ?_⟩
        intro u hu
        match u with
        | 0 => exact absurd rfl hu
        | v + 1 => simp
    | u + 2 =>
      rw [show (c1 :: c2 :: rest).set (u + 2) c' = c1 :: c2 :: rest.set u c' from rfl] at h2
      rw [hexCharsToBytes] at h2
      cases h3b : hexCharsToBytes (rest.set u c') with
      | none => rw [h1, hc2, h3b] at h2; simp at h2
      | some bs2 =>
        rw [h1, hc2, h3b] at h2
        simp at h2
        subst h2
        obtain ⟨ihl, ihe⟩ := hexCharsToBytes_set rest u c' bs0 bs2 h3 h3b
        refine ⟨by simp [ihl], ?_⟩
        intro v hv
        have hdiv : (u + 2) / 2 = u / 2 + 1 := by omega
        rw [hdiv] at hv
        match v with
        | 0 => simp
        | w + 1 =>
          simp only [List.getElem?_cons_succ]
          exact ihe w (by omega)

theorem copies_eq (P sd sd2 : List Nat) (t0 : Nat) (hlen : sd2.length = sd.length)
    (hdiff : ∀ u, u ≠ t0 → (P ++ (sd2 ++ sd2))[u]? = (P ++ (sd ++ sd))[u]?) :
    sd2 = sd := by
  by_cases hc : t0 < P.length + sd.length
  · -- the second copies lie wholly above t0
    apply List.ext_getElem?
    intro w
    by_cases hw : w < sd.length
    · have hL : ∀ X : List Nat, X.length = sd.length →
          (P ++ (X ++ X))[P.length + sd.length + w]? = X[w]? := by
        intro X hX
        rw [List.getElem?_append_right (by omega)]
        rw [show P.length + sd.length + w - P.length = sd.length + w from by omega]
        rw [List.getElem?_append_right (by omega)]
        rw [show sd.length + w - X.length = w from by omega]
      have h := hdiff (P.length + sd.length + w) (by omega)
      rw [hL sd2 hlen, hL sd rfl] at h
      exact h
    · rw [List.getElem?_eq_none (by omega), List.getElem?_eq_none (by omega)]
  · -- the first copies lie wholly below t0
    apply List.ext_getElem?
    intro w
    by_cases hw : w < sd.length
    · have hF : ∀ X : List Nat, X.length = sd.length →
          (P ++ (X ++ X))[P.length + w]? = X[w]? := by
        intro X hX
        rw [List.getElem?_append_right (by omega)]
        rw [show P.length + w - P.length = w from by omega]
        rw [List.getElem?_append, if_pos (by omega)]
      have h := hdiff (P.length + w) (by omega)
      rw [hF sd2 hlen, hF sd rfl] at h
      exact h
    · rw [List.getElem?_eq_none (by omega), List.getElem?_eq_none (by omega)]

theorem decryptMessage_raw (id key : String) (L : List Char) :
    decryptMessage id key ⟨L⟩
      = (hexToBytes key).bind (fun kb =>
          (hexCharsToBytes (L.take 48)).bind (fun nb =>
            (hexCharsToBytes (L.drop 48)).bind (fun mb =>
              (xchachaDecrypt kb nb (utf8ToBytes id) mb).bind textDecode))) := rfl

/-- C3 (amended): decrypting an envelope produced by `encryptMessage`
with a different aad, or with a key whose decoded bytes differ, yields
an authentication failure (`none`); and an envelope with any single
character bit-flipped either fails or — when the flip does not change
the decoded bytes, e.g. a lowercase hex letter flipped to its
uppercase form — still decrypts to the original plaintext. No other
plaintext is ever released. -/
theorem spec_c3_amended :
    (∀ (id id' key plaintext : String) (nonce kb : List Nat) (e : String),
      hexToBytes key = some kb → kb.length = 32 → nonce.length = 24 →
      (∀ b ∈ nonce, b < 256) → id' ≠ id →
      encryptMessage id key plaintext nonce = some e →
      decryptMessage id' key e = none)
    ∧ (∀ (id key key' plaintext : String) (nonce kb kb' : List Nat) (e : String),
      hexToBytes key = some kb → kb.length = 32 → nonce.length = 24 →
      (∀ b ∈ nonce, b < 256) → hexToBytes key' = some kb' → kb' ≠ kb →
      encryptMessage id key plaintext nonce = some e →
      decryptMessage id key' e = none)
    ∧ (∀ (id key plaintext : String) (nonce kb : List Nat) (e : String) (j i : Nat),
      hexToBytes key = some kb → kb.length = 32 → nonce.length = 24 →
      (∀ b ∈ nonce, b < 256) →
      encryptMessage id key plaintext nonce = some e →
      decryptMessage id key (flipBit e j i) = none
      ∨ decryptMessage id key (flipBit e j i) = some plaintext) := by
  refine ⟨?_, ?_, ?_⟩
  · -- different aad
    intro id id' key plaintext nonce kb e hk h32 h24 hnb hne he
    have hkb : ∀ b ∈ kb, b < 256 := hexCharsToBytes_lt key.data kb hk
    have hmb : ∀ b ∈ envMsg kb nonce (utf8ToBytes id) (utf8ToBytes plaintext), b < 256 :=
      envMsg_lt hkb hnb (utf8ToBytes_lt id) (utf8ToBytes_lt plaintext)
    have he2 : e = bytesToHex nonce
        ++ bytesToHex (envMsg kb nonce (utf8ToBytes id) (utf8ToBytes plaintext)) := by
      have henc := encryptMessage_eq id key plaintext nonce kb hk h32 h24
      rw [he] at henc
      exact Option.some.inj henc
    rw [he2, decryptMessage_split id' key h24 hnb hmb, hk]
    cases hxd : xchachaDecrypt kb nonce (utf8ToBytes id')
        (envMsg kb nonce (utf8ToBytes id) (utf8ToBytes plaintext)) with
    | none => simp [hxd]
    | some dd =>
      exfalso
      obtain ⟨_, _, hsound⟩ := xchachaDecrypt_sound hxd
      obtain ⟨_, _, ha, _⟩ := envMsg_inj hsound
      exact hne (utf8ToBytes_inj ha.symm)
  · -- different key bytes
    intro id key key' plaintext nonce kb kb' e hk h32 h24 hnb hk' hne he
    have hkb : ∀ b ∈ kb, b < 256 := hexCharsToBytes_lt key.data kb hk
    have hmb : ∀ b ∈ envMsg kb nonce (utf8ToBytes id) (utf8ToBytes plaintext), b < 256 :=
      envMsg_lt hkb hnb (utf8ToBytes_lt id) (utf8ToBytes_lt plaintext)
    have he2 : e = bytesToHex nonce
        ++ bytesToHex (envMsg kb nonce (utf8ToBytes id) (utf8ToBytes plaintext)) := by
      have henc := encryptMessage_eq id key plaintext nonce kb hk h32 h24
      rw [he] at henc
      exact Option.some.inj henc
    rw [he2, decryptMessage_split id key' h24 hnb hmb, hk']
    cases hxd : xchachaDecrypt kb' nonce (utf8ToBytes id)
        (envMsg kb nonce (utf8ToBytes id) (utf8ToBytes plaintext)) with
    | none => simp [hxd]
    | some dd =>
      exfalso
      obtain ⟨_, _, hsound⟩ := xchachaDecrypt_sound hxd
      obtain ⟨hkk, _, _, _⟩ := envMsg_inj hsound
      exact hne hkk.symm
  · -- bit flip
    intro id key plaintext nonce kb e j i hk h32 h24 hnb he
    have hkb : ∀ b ∈ kb, b < 256 := hexCharsToBytes_lt key.data kb hk
    have hmb : ∀ b ∈ envMsg kb nonce (utf8ToBytes id) (utf8ToBytes plaintext), b < 256 :=
      envMsg_lt hkb hnb (utf8ToBytes_lt id) (utf8ToBytes_lt plaintext)
    obtain ⟨henc, hdec⟩ :=
      decrypt_encrypt_roundtrip id key plaintext nonce kb hk h32 h24 hnb
    have he2 : e = bytesToHex nonce
        ++ bytesToHex (envMsg kb nonce (utf8ToBytes id) (utf8ToBytes plaintext)) := by
      rw [he] at henc
      exact Option.some.inj henc
    have hdata : e.data = (bytesToHex nonce).data
        ++ (bytesToHex (envMsg kb nonce (utf8ToBytes id) (utf8ToBytes plaintext))).data := by
      rw [he2]
      exact String.data_append _ _
    have hH1len : (bytesToHex nonce).data.length = 48 := by
      rw [bytesToHex_length, h24]
    have hn1 : hexCharsToBytes (bytesToHex nonce).data = some nonce :=
      hexToBytes_bytesToHex nonce hnb
    have hm : hexCharsToBytes
        (bytesToHex (envMsg kb nonce (utf8ToBytes id) (utf8ToBytes plaintext))).data
        = some (envMsg kb nonce (utf8ToBytes id) (utf8ToBytes plaintext)) :=
      hexToBytes_bytesToHex _ hmb
    rcases hj : e.data[j]? with _ | c
    · -- out of range: the string is unchanged
      right
      simp only [flipBit, hj]
      rw [he2]
      exact hdec
    · simp only [flipBit, hj]
      by_cases hjlt : j < 48
      · -- the flip lands in the nonce half
        have hset : e.data.set j (flipBitChar c i)
            = (bytesToHex nonce).data.set j (flipBitChar c i)
              ++ (bytesToHex (envMsg kb nonce (utf8ToBytes id) (utf8ToBytes plaintext))).data := by
          rw [hdata, List.set_append, if_pos (by omega)]
        rw [hset, decryptMessage_raw]
        have htake : (((bytesToHex nonce).data.set j (flipBitChar c i))
            ++ (bytesToHex (envMsg kb nonce (utf8ToBytes id) (utf8ToBytes plaintext))).data).take 48
            = (bytesToHex nonce).data.set j (flipBitChar c i) := by
          have hl : ((bytesToHex nonce).data.set j (flipBitChar c i)).length = 48 := by
            rw [List.length_set]
            exact hH1len
          rw [← hl, List.take_left]
        have hdrop : (((bytesToHex nonce).data.set j (flipBitChar c i))
            ++ (bytesToHex (envMsg kb nonce (utf8ToBytes id) (utf8ToBytes plaintext))).data).drop 48
            = (bytesToHex (envMsg kb nonce (utf8ToBytes id) (utf8ToBytes plaintext))).data := by
          have hl : ((bytesToHex nonce).data.set j (flipBitChar c i)).length = 48 := by
            rw [List.length_set]
            exact hH1len
          rw [← hl, List.drop_left]
        rw [htake, hdrop, hk, hm]
        cases hn2 : hexCharsToBytes ((bytesToHex nonce).data.set j (flipBitChar c i)) with
        | none => left; simp
        | some nonce2 =>
          by_cases hnn : nonce2 = nonce
          · right
            subst hnn
            simp [xchachaDecrypt_envMsg (utf8ToBytes id) (utf8ToBytes plaintext) h32 h24,
              textDecode_utf8]
          · left
            cases hxd : xchachaDecrypt kb nonce2 (utf8ToBytes id)
                (envMsg kb nonce (utf8ToBytes id) (utf8ToBytes plaintext)) with
            | none => simp [hxd]
            | some dd =>
              exfalso
              obtain ⟨_, _, hsound⟩ := xchachaDecrypt_sound hxd
              obtain ⟨_, hnn2, _, _⟩ := envMsg_inj hsound
              exact hnn hnn2.symm
      · -- the flip lands in the ciphertext half
        have hset : e.data.set j (flipBitChar c i)
            = (bytesToHex nonce).data
              ++ (bytesToHex (envMsg kb nonce (utf8ToBytes id) (utf8ToBytes plaintext))).data.set
                  (j - 48) (flipBitChar c i) := by
          rw [hdata, List.set_append, if_neg (by omega), hH1len]
        rw [hset, decryptMessage_raw]
        have htake : ((bytesToHex nonce).data
            ++ (bytesToHex (envMsg kb nonce (utf8ToBytes id) (utf8ToBytes plaintext))).data.set
                (j - 48) (flipBitChar c i)).take 48
            = (bytesToHex nonce).data := by
          rw [← hH1len, List.take_left]
        have hdrop : ((bytesToHex nonce).data
            ++ (bytesToHex (envMsg kb nonce (utf8ToBytes id) (utf8ToBytes plaintext))).data.set
                (j - 48) (flipBitChar c i)).drop 48
            = (bytesToHex (envMsg kb nonce (utf8ToBytes id) (utf8ToBytes plaintext))).data.set
                (j - 48) (flipBitChar c i) := by
          rw [← hH1len, List.drop_left]
        rw [htake, hdrop, hk, hn1]
        cases hm2 : hexCharsToBytes
            ((bytesToHex (envMsg kb nonce (utf8ToBytes id) (utf8ToBytes plaintext))).data.set
              (j - 48) (flipBitChar c i)) with
        | none => left; simp
        | some m2 =>
          by_cases hmeq : m2 = envMsg kb nonce (utf8ToBytes id) (utf8ToBytes plaintext)
          · right
            subst hmeq
            simp [xchachaDecrypt_envMsg (utf8ToBytes id) (utf8ToBytes plaintext) h32 h24,
              textDecode_utf8]
          · left
            cases hxd : xchachaDecrypt kb nonce (utf8ToBytes id) m2 with
            | none => simp [hxd]
            | some dd =>
              exfalso
              obtain ⟨_, _, hsound⟩ := xchachaDecrypt_sound hxd
              obtain ⟨hlen2, hdiff⟩ := hexCharsToBytes_set _ (j - 48) (flipBitChar c i)
                _ m2 hm hm2
              have hP2 : m2 = (ser kb ++ ser nonce ++ ser (utf8ToBytes id))
                  ++ (ser dd ++ ser dd) := by
                rw [hsound, envMsg]
                simp [List.append_assoc]
              have hPM : envMsg kb nonce (utf8ToBytes id) (utf8ToBytes plaintext)
                  = (ser kb ++ ser nonce ++ ser (utf8ToBytes id))
                    ++ (ser (utf8ToBytes plaintext) ++ ser (utf8ToBytes plaintext)) := by
                rw [envMsg]
                simp [List.append_assoc]
              have hslen : (ser dd).length = (ser (utf8ToBytes plaintext)).length := by
                rw [hP2, hPM] at hlen2
                simp only [List.length_append] at hlen2
                omega
              have hcopies : ser dd = ser (utf8ToBytes plaintext) := by
                refine copies_eq (ser kb ++ ser nonce ++ ser (utf8ToBytes id))
                  (ser (utf8ToBytes plaintext)) (ser dd) ((j - 48) / 2) hslen ?_
                intro u hu
                have hh := hdiff u hu
                rw [hP2, hPM] at hh
                exact hh
              have hdd : dd = utf8ToBytes plaintext := ser_inj hcopies
              apply hmeq
              rw [hP2, hdd, hPM]

set_option maxRecDepth 10000

/-- Concrete envelope of `encryptMessage "x" key0 "hi" nonce0`. Its
second character is the hex letter 'a' (from the 0x0a nonce bytes). -/
def cexEnv : String := (encryptMessage "x" key0 "hi" nonce0).getD ""

/-- C3 counterexample: flipping bit 5 of the envelope's second
character turns the lowercase hex 'a' into 'A'; the decoder accepts
uppercase hex, the decoded bytes are unchanged, and decryption returns
the plaintext — not an authentication failure — refuting "flipping any
bit in the envelope yields AuthFailure, never plaintext". -/
theorem spec_c3_counterexample :
    encryptMessage "x" key0 "hi" nonce0 = some cexEnv
    ∧ flipBit cexEnv 1 5 ≠ cexEnv
    ∧ decryptMessage "x" key0 (flipBit cexEnv 1 5) = some "hi" :=
  ⟨by decide, by decide, by decide⟩

/-- Hex key whose decoded bytes differ from `key0`'s in the first byte. -/
def key1 : String := ⟨'1' :: List.replicate 63 '0'⟩

theorem spec_c3_witness :
    hexToBytes key0 = some (List.replicate 32 0)
    ∧ (List.replicate 32 (0 : Nat)).length = 32
    ∧ nonce0.length = 24
    ∧ (∀ b ∈ nonce0, b < 256)
    ∧ ("y" : String) ≠ "x"
    ∧ hexToBytes key1 = some (16 :: List.replicate 31 0)
    ∧ (16 :: List.replicate 31 (0 : Nat)) ≠ List.replicate 32 0
    ∧ encryptMessage "x" key0 "hi" nonce0 = some cexEnv
    ∧ decryptMessage "y" key0 cexEnv = none
    ∧ decryptMessage "x" key1 cexEnv = none
    ∧ (decryptMessage "x" key0 (flipBit cexEnv 90 0) = none
       ∨ decryptMessage "x" key0 (flipBit cexEnv 90 0) = some "hi") := by
  refine ⟨by decide, by decide, by decide, by decide, by decide, by decide, by decide,
    by decide, ?_, ?_, ?_⟩
  · exact spec_c3_amended.1 "x" "y" key0 "hi" nonce0 (List.replicate 32 0) cexEnv
      (by decide) (by decide) (by decide) (by decide) (by decide) (by decide)
  · exact spec_c3_amended.2.1 "x" key0 key1 "hi" nonce0 (List.replicate 32 0)
      (16 :: List.replicate 31 0) cexEnv
      (by decide) (by decide) (by decide) (by decide) (by decide) (by decide) (by decide)
  · exact spec_c3_amended.2.2 "x" key0 "hi" nonce0 (List.replicate 32 0) cexEnv 90 0
      (by decide) (by decide) (by decide) (by decide) (by decide)

/-! ### C8: audit logging inside the route handlers

src/main.ts calls `logKeyAccess` inside the same try block as the key
retrieval; a thrown exception from either is caught by the one catch.
The outcomes of the key retrieval and of the `logKeyAccess` insert are
explicit parameters (`Except.error msg` models a thrown exception with
that message). -/

/-- The try/catch of `router.get('/xrpc/dev.atpkeyserver.alpha.key.public')`:
on any throw the handler returns `error(404, message)`. -/
def publicKeyRoute (keyResult : Except String String) (logResult : Except String Unit) :
    KResult String :=
  match keyResult with
  | .error msg => .err 404 msg
  | .ok publicKey =>
    match logResult with
    | .error msg => .err 404 msg
    | .ok _ => .ok publicKey

/-- The try/catch of `router.get('/xrpc/dev.atpkeyserver.alpha.key')`:
on any throw the handler returns `error(500, message)`. -/
def authedKeyRoute (keyResult : Except String String) (logResult : Except String Unit) :
    KResult String :=
  match keyResult with
  | .error msg => .err 500 msg
  | .ok keypair =>
    match logResult with
    | .error msg => .err 500 msg
    | .ok _ => .ok keypair

/-- C8 counterexample: on the public-key route, when the key retrieval
succeeds but the audit insert throws, the handler's catch converts the
logging failure into a 404 error response — the caller does not
receive the key, refuting "a failure of the access-log append never
changes the result of the caller's primary operation". -/
theorem spec_c8_counterexample :
    publicKeyRoute (Except.ok "pk") (Except.error "insert failed") ≠ KResult.ok "pk"
    ∧ publicKeyRoute (Except.ok "pk") (Except.error "insert failed")
        = KResult.err 404 "insert failed"
    ∧ authedKeyRoute (Except.ok "kp") (Except.error "insert failed")
        = KResult.err 500 "insert failed" := by
  exact ⟨by decide, by decide, by decide⟩

/-- C8 (amended): since `logKeyAccess` runs inside the route's try
block, a logging failure after a successful key retrieval propagates
to the catch and replaces the response — 404 on the public-key route,
500 on the authed key route; the caller receives the key only when the
audit insert also succeeds. -/
theorem spec_c8_amended :
    (∀ pk msg : String, publicKeyRoute (.ok pk) (.error msg) = .err 404 msg)
    ∧ (∀ pk msg : String, authedKeyRoute (.ok pk) (.error msg) = .err 500 msg)
    ∧ (∀ pk : String, publicKeyRoute (.ok pk) (.ok ()) = .ok pk)
    ∧ (∀ pk : String, authedKeyRoute (.ok pk) (.ok ()) = .ok pk)
    ∧ (∀ (msg : String) (logResult : Except String Unit),
        publicKeyRoute (.error msg) logResult = .err 404 msg) := by
  exact ⟨fun _ _ => rfl, fun _ _ => rfl, fun _ => rfl, fun _ => rfl, fun _ _ => rfl⟩
